import Mathlib

/-!
Verification of the binary format engine of `tools/audio2fseq.py`
(fpp-eavesdrop): frame encoding, header codec, and the FSEQ merge
algorithm, shallowly embedded as executable Lean definitions.
Bytes are modelled as `Nat` values below 256, PCM samples as `Int`
(Python integers are unbounded), Python `//` as `Int.fdiv`,
Python `x & 0xFF` as `x % 256` (`Int.emod`), and Python `x >> 8`
as `Int.fdiv x 256`.
-/

namespace Audio2Fseq

/-- Sync-marker bytes `0xAA 0x55` (`SYNC_MARKER`, line 28 of the source). -/
def SYNC_MARKER : List Nat := [170, 85]

/-- Magic bytes of the ASCII string `PSEQ` (`FSEQ_MAGIC`, line 29). -/
def FSEQ_MAGIC : List Nat := [80, 83, 69, 81]

/-- The two bytes one 16-bit sample contributes to a frame
(`samples_to_frame_channels` body, lines 139-144): a negative sample is
offset by 65536, then the high byte `(sample >> 8) & 0xFF` and the low
byte `sample & 0xFF` are appended. -/
def sampleBytes (s : Int) : List Nat :=
  let u := if s < 0 then s + 65536 else s
  [((u.fdiv 256) % 256).toNat, (u % 256).toNat]

/-- One frame built from a chunk of at most `spf` samples
(lines 134-146): the chunk is padded with zero samples to length `spf`,
then the sync marker is followed by the two bytes of each sample. -/
def frameOfChunk (chunk : List Int) (spf : Nat) : List Nat :=
  let padded := chunk ++ List.replicate (spf - chunk.length) 0
  SYNC_MARKER ++ padded.flatMap sampleBytes

/-- The `while frame_idx * samples_per_frame < total_samples` loop of
`samples_to_frame_channels` (lines 129-147), with explicit fuel so that
the (reachable, for `spf = 0`) non-terminating behaviour of the Python
loop is representable: `none` means the loop did not exit within `fuel`
iterations. -/
def stfcGo (fuel : Nat) (samples : List Int) (spf : Nat) (frameIdx : Nat) :
    Option (List (List Nat)) :=
  match fuel with
  | 0 => none
  | fuel + 1 =>
    if frameIdx * spf < samples.length then
      (stfcGo fuel samples spf (frameIdx + 1)).map
        (fun rest => frameOfChunk ((samples.drop (frameIdx * spf)).take spf) spf :: rest)
    else some []

/-- `samples_to_frame_channels(samples, samples_per_frame)`
(lines 122-149).  For `spf ≥ 1` the loop runs `ceil(len/spf) ≤ len`
iterations, so `len + 1` fuel always suffices and the result is `some`. -/
def samples_to_frame_channels (samples : List Int) (spf : Nat) :
    Option (List (List Nat)) :=
  stfcGo (samples.length + 1) samples spf 0

/-- Closed form of the encoder loop from frame index `idx` on, for
positive `spf`: one frame per chunk `samples[idx*spf : (idx+1)*spf]`.
The `1 ≤ spf` guard makes the recursion well-founded; `stfcGo` is shown
to agree with it whenever `1 ≤ spf` and fuel is sufficient. -/
def framesFrom (samples : List Int) (spf : Nat) (idx : Nat) : List (List Nat) :=
  if h : 1 ≤ spf ∧ idx * spf < samples.length then
    frameOfChunk ((samples.drop (idx * spf)).take spf) spf :: framesFrom samples spf (idx + 1)
  else []
termination_by samples.length - idx * spf
decreasing_by
  rw [Nat.add_mul, Nat.one_mul]
  omega

/-- `channels_per_frame = 2 + (samples_per_frame * 2 * n_channels)`
(`main`, line 444). -/
def channels_per_frame (spf nChannels : Nat) : Nat :=
  2 + spf * 2 * nChannels

/-- The per-frame size check of the write loop of `write_fseq_v2`
(`assert len(frame) == channels_per_frame`, lines 222-225): `true` iff
every frame has the declared width. -/
def frames_match_declared (frames : List (List Nat)) (cpf : Nat) : Bool :=
  frames.all (fun f => f.length == cpf)

example : samples_to_frame_channels [0, 0] 1 =
    some [[170, 85, 0, 0], [170, 85, 0, 0]] := by decide

example : samples_to_frame_channels [1, -1, 256] 2 =
    some [[170, 85, 0, 1, 255, 255], [170, 85, 1, 0, 0, 0]] := by decide

/-- Every sample contributes exactly two bytes. -/
lemma length_flatMap_sampleBytes (l : List Int) :
    (l.flatMap sampleBytes).length = 2 * l.length := by
  induction l with
  | nil => rfl
  | cons x xs ih =>
      simp only [List.flatMap_cons, List.length_append, ih, List.length_cons]
      simp only [sampleBytes, List.length_cons, List.length_nil]
      ring

/-- A frame built from a chunk of at most `spf` samples has exactly
`2 + 2 * spf` bytes. -/
lemma frameOfChunk_length (chunk : List Int) (spf : Nat)
    (h : chunk.length ≤ spf) :
    (frameOfChunk chunk spf).length = 2 + 2 * spf := by
  simp only [frameOfChunk, List.length_append, length_flatMap_sampleBytes,
    List.length_replicate, SYNC_MARKER, List.length_cons, List.length_nil]
  omega

/-- Ceiling-division recurrence: removing one chunk of `spf` from a
positive remainder `r` lowers `ceil(r / spf)` by one. -/
lemma ceil_div_step (r spf : Nat) (h : 1 ≤ spf) (hr : 1 ≤ r) :
    (r + spf - 1) / spf = (r - spf + spf - 1) / spf + 1 := by
  rcases le_or_lt spf r with hge | hlt
  · have e1 : r + spf - 1 = (r - spf + spf - 1) + spf := by omega
    rw [e1, Nat.add_div_right _ (by omega)]
  · have e2 : r - spf = 0 := by omega
    have e3 : (r + spf - 1) / spf = 1 := by
      apply Nat.div_eq_of_lt_le
      · omega
      · omega
    have e4 : (0 + spf - 1) / spf = 0 := Nat.div_eq_of_lt (by omega)
    rw [e2, e3, e4]

/-- The closed-form loop produces `ceil((len - idx*spf) / spf)` frames. -/
lemma framesFrom_length (samples : List Int) (spf : Nat) (h : 1 ≤ spf) :
    ∀ idx, (framesFrom samples spf idx).length
      = (samples.length - idx * spf + spf - 1) / spf := by
  suffices hs : ∀ B idx, samples.length - idx * spf ≤ B →
      (framesFrom samples spf idx).length
        = (samples.length - idx * spf + spf - 1) / spf by
    intro idx
    exact hs (samples.length - idx * spf) idx le_rfl
  intro B
  induction B with
  | zero =>
      intro idx hB
      rw [framesFrom, dif_neg (by omega)]
      have e : samples.length - idx * spf = 0 := by omega
      rw [e, List.length_nil, Nat.div_eq_of_lt (by omega)]
  | succ B ih =>
      intro idx hB
      by_cases hg : idx * spf < samples.length
      · rw [framesFrom, dif_pos ⟨h, hg⟩, List.length_cons]
        have hmul : (idx + 1) * spf = idx * spf + spf := by
          rw [Nat.add_mul, Nat.one_mul]
        rw [ih (idx + 1) (by rw [hmul]; omega)]
        have e1 : samples.length - (idx + 1) * spf
            = samples.length - idx * spf - spf := by rw [hmul]; omega
        rw [e1]
        have := ceil_div_step (samples.length - idx * spf) spf h (by omega)
        omega
      · rw [framesFrom, dif_neg (by tauto)]
        have e : samples.length - idx * spf = 0 := by omega
        rw [e, List.length_nil, Nat.div_eq_of_lt (by omega)]

/-- With `1 ≤ spf` and enough fuel, the fuel-indexed loop exits and
agrees with the closed-form loop. -/
lemma stfcGo_eq_framesFrom (samples : List Int) (spf : Nat) (h : 1 ≤ spf) :
    ∀ fuel idx, samples.length - idx * spf < fuel →
      stfcGo fuel samples spf idx = some (framesFrom samples spf idx) := by
  intro fuel
  induction fuel with
  | zero => intro idx hB; omega
  | succ fuel ih =>
      intro idx hB
      by_cases hg : idx * spf < samples.length
      · have hmul : (idx + 1) * spf = idx * spf + spf := by
          rw [Nat.add_mul, Nat.one_mul]
        rw [stfcGo, if_pos hg, ih (idx + 1) (by rw [hmul]; omega)]
        simp only [Option.map_some']
        conv_rhs => rw [framesFrom]
        rw [dif_pos ⟨h, hg⟩]
      · rw [stfcGo, if_neg hg, framesFrom, dif_neg (by tauto)]

/-- For positive `spf` the encoder terminates with the closed-form
frame list. -/
lemma samples_to_frame_channels_eq (samples : List Int) (spf : Nat)
    (h : 1 ≤ spf) :
    samples_to_frame_channels samples spf
      = some (framesFrom samples spf 0) := by
  exact stfcGo_eq_framesFrom samples spf h (samples.length + 1) 0 (by omega)

/-- Zero samples serialize to pairs of zero bytes. -/
lemma flatMap_sampleBytes_replicate_zero (m : Nat) :
    (List.replicate m (0 : Int)).flatMap sampleBytes
      = List.replicate (2 * m) 0 := by
  induction m with
  | zero => rfl
  | succ m ih =>
      rw [List.replicate_succ, List.flatMap_cons, ih]
      have e : 2 * (m + 1) = 2 + 2 * m := by omega
      rw [e, List.replicate_add]
      rfl

/-- A chunk of `k ≤ spf` zero samples yields the all-silence frame. -/
lemma frameOfChunk_replicate_zero (k spf : Nat) (h : k ≤ spf) :
    frameOfChunk (List.replicate k 0) spf
      = SYNC_MARKER ++ List.replicate (2 * spf) 0 := by
  simp only [frameOfChunk, List.length_replicate]
  rw [← List.replicate_add]
  have e : k + (spf - k) = spf := by omega
  rw [e, flatMap_sampleBytes_replicate_zero]

/-- On an all-zero input the closed-form loop emits only all-silence
frames. -/
lemma framesFrom_replicate_zero (n spf : Nat) (h : 1 ≤ spf) :
    ∀ idx, framesFrom (List.replicate n (0 : Int)) spf idx
      = List.replicate ((n - idx * spf + spf - 1) / spf)
          (SYNC_MARKER ++ List.replicate (2 * spf) 0) := by
  suffices hs : ∀ B idx, n - idx * spf ≤ B →
      framesFrom (List.replicate n (0 : Int)) spf idx
        = List.replicate ((n - idx * spf + spf - 1) / spf)
            (SYNC_MARKER ++ List.replicate (2 * spf) 0) by
    intro idx
    exact hs (n - idx * spf) idx le_rfl
  intro B
  induction B with
  | zero =>
      intro idx hB
      rw [framesFrom, dif_neg (by rw [List.length_replicate]; omega)]
      have e : n - idx * spf = 0 := by omega
      rw [e, Nat.div_eq_of_lt (by omega), List.replicate_zero]
  | succ B ih =>
      intro idx hB
      by_cases hg : idx * spf < n
      · rw [framesFrom, dif_pos ⟨h, by rw [List.length_replicate]; exact hg⟩]
        rw [List.drop_replicate, List.take_replicate]
        rw [frameOfChunk_replicate_zero _ _ (Nat.min_le_left _ _)]
        have hmul : (idx + 1) * spf = idx * spf + spf := by
          rw [Nat.add_mul, Nat.one_mul]
        rw [ih (idx + 1) (by rw [hmul]; omega)]
        have hstep := ceil_div_step (n - idx * spf) spf h (by omega)
        have e1 : n - (idx + 1) * spf = n - idx * spf - spf := by
          rw [hmul]; omega
        rw [e1, ← List.replicate_succ]
        congr 1
        omega
      · rw [framesFrom, dif_neg (by rw [List.length_replicate]; tauto)]
        have e : n - idx * spf = 0 := by omega
        rw [e, Nat.div_eq_of_lt (by omega), List.replicate_zero]

/-- Claim C1 (code bug witness): with stereo kept (`--stereo`,
`n_channels = 2`) and `samples_per_frame = 1`, the two interleaved
samples `[L0, R0] = [0, 0]` encode into two frames of 4 bytes each,
while `main` declares `channels_per_frame = 2 + 1*2*2 = 6`; the
per-frame size assertion of `write_fseq_v2` (the `FrameSizeMismatch`
condition) therefore fires — the claimed width
`2 + samplesPerFrame*2*channelCount` does not hold for
`channelCount = 2`, because the encoder packs `samples_per_frame`
interleaved samples per frame regardless of the channel count. -/
theorem stereo_frame_width_bug :
    samples_to_frame_channels [0, 0] 1
        = some [[170, 85, 0, 0], [170, 85, 0, 0]] ∧
    channels_per_frame 1 2 = 6 ∧
    frames_match_declared [[170, 85, 0, 0], [170, 85, 0, 0]]
        (channels_per_frame 1 2) = false := by
  decide

/-- Claim C2 (code bug witness): the source has no `InvalidFrameRate`
check at all.  When the computed `samples_per_frame` is `0` and the
sample list is non-empty, the loop guard
`frame_idx * samples_per_frame < total_samples` stays true forever, so
the encode loop of `samples_to_frame_channels` never exits (it is
`none` for every fuel), instead of failing before producing frames. -/
theorem spf_zero_encode_never_exits :
    (∀ fuel idx : Nat, stfcGo fuel [0] 0 idx = none) ∧
    samples_to_frame_channels [0] 0 = none := by
  have hloop : ∀ fuel idx : Nat, stfcGo fuel [0] 0 idx = none := by
    intro fuel
    induction fuel with
    | zero => intro idx; rfl
    | succ fuel ih =>
        intro idx
        rw [stfcGo, if_pos (by simp), ih (idx + 1)]
        rfl
  exact ⟨hloop, hloop 2 0⟩

/-- Claim C9: for `samplesPerFrame ≥ 1` the frame encoder terminates
(any fuel above the sample count makes the loop exit) and returns
exactly `ceil(len(samples) / samplesPerFrame)` frames; an empty sample
list yields an empty frame sequence. -/
theorem frame_count_is_ceil (samples : List Int) (spf : Nat)
    (h : 1 ≤ spf) :
    ∃ out, samples_to_frame_channels samples spf = some out ∧
      (∀ fuel, samples.length < fuel →
        stfcGo fuel samples spf 0 = some out) ∧
      out.length = (samples.length + spf - 1) / spf ∧
      (samples = [] → out = []) := by
  refine ⟨framesFrom samples spf 0,
    samples_to_frame_channels_eq samples spf h, ?_, ?_, ?_⟩
  · intro fuel hf
    exact stfcGo_eq_framesFrom samples spf h fuel 0 (by omega)
  · rw [framesFrom_length samples spf h 0]
    congr 2
    omega
  · intro he
    subst he
    rw [framesFrom, dif_neg (by simp)]

/-- Witness for `frame_count_is_ceil` at a concrete input: three
samples at two samples per frame give `ceil(3/2) = 2` frames. -/
theorem frame_count_is_ceil_witness :
    ∃ out, samples_to_frame_channels [1, 2, 3] 2 = some out ∧
      (∀ fuel, ([1, 2, 3] : List Int).length < fuel →
        stfcGo fuel [1, 2, 3] 2 0 = some out) ∧
      out.length = (([1, 2, 3] : List Int).length + 2 - 1) / 2 ∧
      ([1, 2, 3] = ([] : List Int) → out = []) :=
  frame_count_is_ceil [1, 2, 3] 2 (by omega)

/-- Claim C3 (counterexample): one second of 44100 Hz all-zero mono
audio at `samples_per_frame = 1102` encodes into `ceil(44100/1102) = 41`
frames (40 full frames plus one padded frame), not the 40 frames the
claim states. -/
theorem end_to_end_frame_count_not_40 :
    (samples_to_frame_channels (List.replicate 44100 0) 1102).map
        List.length = some 41 ∧ (41 : Nat) ≠ 40 := by
  constructor
  · rw [samples_to_frame_channels_eq _ _ (by omega)]
    simp only [Option.map_some']
    rw [framesFrom_length _ _ (by omega) 0]
    norm_num [List.length_replicate]
  · omega

/-- Claim C3 (amended): one second of 44100 Hz all-zero mono audio at
40 fps (`samples_per_frame = 1102`) encodes into exactly 41 frames,
each of byte length `channels_per_frame = 2 + 1102*2*1 = 2206`, whose
first two bytes are `0xAA 0x55` and whose remaining 2204 PCM bytes are
all zero. -/
theorem end_to_end_44100_zero_frames :
    samples_to_frame_channels (List.replicate 44100 0) 1102
        = some (List.replicate 41 (SYNC_MARKER ++ List.replicate 2204 0)) ∧
    (SYNC_MARKER ++ List.replicate 2204 (0 : Nat)).length = 2206 ∧
    (SYNC_MARKER ++ List.replicate 2204 (0 : Nat)).take 2 = [170, 85] ∧
    channels_per_frame 1102 1 = 2206 := by
  refine ⟨?_, by rw [List.length_append, List.length_replicate]; rfl, rfl, rfl⟩
  rw [samples_to_frame_channels_eq _ _ (by omega)]
  rw [framesFrom_replicate_zero 44100 1102 (by omega) 0]

/-- The grouping loop of `to_mono` (lines 96-99): step through the
interleaved samples `n_channels` at a time and emit
`sum(chunk) // len(chunk)` for each chunk, where Python `//` is floor
division (`Int.fdiv`) and the divisor is the actual chunk length (the
final chunk may be short).  The loop over `range(0, len(samples), n)`
performs at most `len(samples)` iterations when `n ≥ 1`, so the list
length is used as structural fuel.  For step `0` Python `range`
raises `ValueError`; that case is unreachable from the script (the
channel count of a decoded file is ≥ 1). -/
def monoGo (fuel : Nat) (n : Nat) (l : List Int) : List Int :=
  match fuel, l with
  | 0, _ => []
  | _, [] => []
  | fuel + 1, x :: xs =>
      let chunk := (x :: xs).take n
      Int.fdiv chunk.sum chunk.length :: monoGo fuel n ((x :: xs).drop n)

/-- `to_mono(samples, n_channels)` (lines 92-100): identity for one
channel, otherwise the chunked floor-mean mixdown. -/
def to_mono (samples : List Int) (n_channels : Nat) : List Int :=
  if n_channels = 1 then samples else monoGo samples.length n_channels samples

example : to_mono [3, 4] 2 = [3] := by decide
example : to_mono [-1, -2] 2 = [-2] := by decide
example : to_mono [1, 2, 3] 2 = [1, 3] := by decide

/-- For a positive channel count dividing the sample count and enough
fuel, `monoGo` emits one floor-mean per group of `n` consecutive
samples. -/
lemma monoGo_spec (n : Nat) (hn : 1 ≤ n) :
    ∀ (fuel : Nat) (l : List Int), l.length ≤ fuel → n ∣ l.length →
      (monoGo fuel n l).length = l.length / n ∧
      ∀ i, i < l.length / n →
        (monoGo fuel n l).getD i 0 = Int.fdiv ((l.drop (i * n)).take n).sum n := by
  intro fuel
  induction fuel with
  | zero =>
      intro l hl hd
      have he : l = [] := List.eq_nil_of_length_eq_zero (by omega)
      subst he
      exact ⟨by simp [monoGo], fun i hi => by simp at hi⟩
  | succ fuel ih =>
      intro l hl hd
      match l with
      | [] => exact ⟨by simp [monoGo], fun i hi => by simp at hi⟩
      | x :: xs =>
          simp only [List.length_cons] at hl hd
          obtain ⟨k, hk⟩ := hd
          have hk1 : 1 ≤ k := by
            rcases Nat.eq_zero_or_pos k with h0 | h1
            · rw [h0, Nat.mul_zero] at hk; omega
            · exact h1
          have hnle : n ≤ xs.length + 1 := by
            rw [hk]
            exact Nat.le_mul_of_pos_right _ hk1
          have hchunk : ((x :: xs).take n).length = n := by
            rw [List.length_take, List.length_cons]
            omega
          have hrlen : ((x :: xs).drop n).length = xs.length + 1 - n := by
            rw [List.length_drop, List.length_cons]
          have hrdvd : n ∣ ((x :: xs).drop n).length := by
            rw [hrlen]
            exact Nat.dvd_sub' ⟨k, hk⟩ dvd_rfl
          obtain ⟨ihl, ihg⟩ := ih ((x :: xs).drop n) (by rw [hrlen]; omega) hrdvd
          have hdiv : (xs.length + 1) / n = (xs.length + 1 - n) / n + 1 :=
            Nat.div_eq_sub_div (by omega) hnle
          constructor
          · simp only [monoGo, List.length_cons]
            rw [ihl, hrlen, hdiv]
          · intro i hi
            simp only [List.length_cons] at hi
            match i with
            | 0 =>
                simp only [monoGo, List.getD_cons_zero, List.drop_zero,
                  Nat.zero_mul, hchunk]
            | i + 1 =>
                simp only [monoGo, List.getD_cons_succ]
                have hi2 : i < ((x :: xs).drop n).length / n := by
                  rw [hrlen]
                  omega
                rw [ihg i hi2, List.drop_drop]
                have e : n + i * n = (i + 1) * n := by
                  rw [Nat.add_mul, Nat.one_mul]
                  omega
                rw [e]

/-- Claim C4 (counterexample): `to_mono` uses Python `//`, which is
floor division, not truncation toward zero.  On the stereo pair
`[-1, -2]` the group sum is `-3` and the code yields `-3 // 2 = -2`
(floor), whereas the claimed truncation toward zero would give
`Int.tdiv (-3) 2 = -1`. -/
theorem to_mono_not_truncating :
    to_mono [-1, -2] 2 = [-2] ∧ Int.tdiv (-1 + -2) 2 = -1 ∧
    to_mono [-1, -2] 2 ≠ [Int.tdiv (-1 + -2) 2] := by
  decide

/-- Claim C4 (amended): for `channelCount = 1`, `to_mono` is the
identity; `[3, 4]` maps to `[3]`; and for every interleaved list whose
length is a multiple of `channelCount ≥ 2`, `to_mono` replaces each
group of `channelCount` consecutive samples by the floor (toward
negative infinity, Python `//`) of the group mean. -/
theorem to_mono_floor_mean :
    (∀ samples : List Int, to_mono samples 1 = samples) ∧
    to_mono [3, 4] 2 = [3] ∧
    ∀ (samples : List Int) (n : Nat), 2 ≤ n → n ∣ samples.length →
      (to_mono samples n).length = samples.length / n ∧
      ∀ i, i < samples.length / n →
        (to_mono samples n).getD i 0
          = Int.fdiv ((samples.drop (i * n)).take n).sum n := by
  refine ⟨?_, by decide, ?_⟩
  · intro samples
    simp [to_mono]
  · intro samples n h2 hd
    rw [to_mono, if_neg (by omega)]
    exact monoGo_spec n (by omega) samples.length samples le_rfl hd

/-- Witness for `to_mono_floor_mean` at the concrete input
`[1, 2, 3, 4]` with two channels. -/
theorem to_mono_floor_mean_witness :
    (to_mono [1, 2, 3, 4] 2).length = ([1, 2, 3, 4] : List Int).length / 2 ∧
    ∀ i, i < ([1, 2, 3, 4] : List Int).length / 2 →
      (to_mono [1, 2, 3, 4] 2).getD i 0
        = Int.fdiv ((([1, 2, 3, 4] : List Int).drop (i * 2)).take 2).sum 2 :=
  to_mono_floor_mean.2.2 [1, 2, 3, 4] 2 (by omega) (by decide)

/-- Little-endian bytes of `struct.pack("<B", v)`. -/
def u8le (v : Nat) : List Nat := [v % 256]

/-- Little-endian bytes of `struct.pack("<H", v)`. -/
def u16le (v : Nat) : List Nat := [v % 256, v / 256 % 256]

/-- Little-endian bytes of `struct.pack("<I", v)`. -/
def u32le (v : Nat) : List Nat :=
  [v % 256, v / 256 % 256, v / 65536 % 256, v / 16777216 % 256]

/-- Little-endian bytes of `struct.pack("<Q", v)`. -/
def u64le (v : Nat) : List Nat :=
  [v % 256, v / 256 % 256, v / 65536 % 256, v / 16777216 % 256,
   v / 4294967296 % 256, v / 1099511627776 % 256,
   v / 281474976710656 % 256, v / 72057594037927936 % 256]

/-- The header fields returned by `read_fseq_header` (lines 251-262):
data offset, minor/major version, variable-header offset, channel
count, frame count, step time, flags, compression type, compression
block count, sparse range count.  The reserved byte and the 64-bit
unique ID at offsets 23-31 are written but never read back. -/
structure FseqHeader where
  data_offset : Nat
  minor_ver : Nat
  major_ver : Nat
  var_header_offset : Nat
  channel_count : Nat
  frame_count : Nat
  step_time : Nat
  flags : Nat
  compression : Nat
  comp_blocks : Nat
  sparse_ranges : Nat
deriving DecidableEq, Repr

/-- The 32-byte fixed-header packing sequence of `write_fseq_v2`
(lines 186-211; the identical sequence appears in `merge_into_fseq`,
lines 312-326), parameterized over the field values the `struct.pack`
calls receive (the script passes constants for the version, flag,
compression and reserved fields, and `0` for the unique ID). -/
def encodeFixedHeader (h : FseqHeader) : List Nat :=
  FSEQ_MAGIC ++ u16le h.data_offset ++ u8le h.minor_ver ++ u8le h.major_ver
    ++ u16le h.var_header_offset ++ u32le h.channel_count
    ++ u32le h.frame_count ++ u8le h.step_time ++ u8le h.flags
    ++ u8le h.compression ++ u8le h.comp_blocks ++ u8le h.sparse_ranges
    ++ u8le 0 ++ u64le 0

/-- `read_fseq_header` (lines 232-262) on an in-memory byte list: the
first four bytes must equal the `PSEQ` magic (otherwise the reader
raises `ValueError`, modelled as `none`); then the fields are unpacked
sequentially, little-endian.  A file shorter than the 23 bytes the
reader consumes makes `struct.unpack` raise, also modelled as `none`. -/
def read_fseq_header (bs : List Nat) : Option FseqHeader :=
  match bs with
  | m0 :: m1 :: m2 :: m3 :: d0 :: d1 :: mi :: ma :: v0 :: v1
      :: c0 :: c1 :: c2 :: c3 :: f0 :: f1 :: f2 :: f3
      :: st :: fl :: co :: cb :: sr :: _ =>
    if [m0, m1, m2, m3] = FSEQ_MAGIC then
      some
        { data_offset := d0 + 256 * d1
          minor_ver := mi
          major_ver := ma
          var_header_offset := v0 + 256 * v1
          channel_count := c0 + 256 * c1 + 65536 * c2 + 16777216 * c3
          frame_count := f0 + 256 * f1 + 65536 * f2 + 16777216 * f3
          step_time := st
          flags := fl
          compression := co
          comp_blocks := cb
          sparse_ranges := sr }
    else none
  | _ => none

example : (encodeFixedHeader
    ⟨64, 0, 2, 32, 2206, 41, 25, 0, 0, 0, 0⟩).length = 32 := by decide

/-- Claim C7: for every header whose fields fit their declared widths,
decoding the 32-byte fixed header produced by the encoder yields back
exactly the same field values. -/
theorem fseq_header_roundtrip (h : FseqHeader)
    (h1 : h.data_offset < 65536) (h2 : h.minor_ver < 256)
    (h3 : h.major_ver < 256) (h4 : h.var_header_offset < 65536)
    (h5 : h.channel_count < 4294967296) (h6 : h.frame_count < 4294967296)
    (h7 : h.step_time < 256) (h8 : h.flags < 256) (h9 : h.compression < 256)
    (h10 : h.comp_blocks < 256) (h11 : h.sparse_ranges < 256) :
    read_fseq_header (encodeFixedHeader h) = some h := by
  obtain ⟨d, mi, ma, vo, cc, fc, st, fl, co, cb, sr⟩ := h
  simp only [encodeFixedHeader, FSEQ_MAGIC, u8le, u16le, u32le, u64le,
    List.cons_append, List.nil_append, read_fseq_header] at *
  rw [if_pos trivial]
  simp only [Option.some.injEq, FseqHeader.mk.injEq]
  refine ⟨?_, by omega, by omega, ?_, ?_, ?_, by omega, by omega,
    by omega, by omega, by omega⟩ <;> omega

/-- Witness for `fseq_header_roundtrip` at a concrete header value. -/
theorem fseq_header_roundtrip_witness :
    read_fseq_header (encodeFixedHeader ⟨64, 0, 2, 32, 2206, 41, 25, 0, 0, 0, 0⟩)
      = some ⟨64, 0, 2, 32, 2206, 41, 25, 0, 0, 0, 0⟩ :=
  fseq_header_roundtrip ⟨64, 0, 2, 32, 2206, 41, 25, 0, 0, 0, 0⟩
    (by decide) (by decide) (by decide) (by decide) (by decide) (by decide)
    (by decide) (by decide) (by decide) (by decide) (by decide)

/-- Python slice assignment `l[a:b] = v` on a `bytearray` (used at
lines 343 and 348): indices are clamped to the list length, the lower
bound of the upper index is the clamped lower index, and the selected
span is replaced by `v` (which may change the overall length if
`v.length` differs from the span width). -/
def setSlice (l : List Nat) (a b : Nat) (v : List Nat) : List Nat :=
  let a2 := min a l.length
  let b2 := max a2 (min b l.length)
  l.take a2 ++ v ++ l.drop b2

/-- `f.seek(info["data_offset"]); light_data = f.read()`
(lines 296-299): the channel-data region of the merge target is
whatever bytes follow the declared data offset; no length validation
is performed. -/
def read_channel_data (fileBytes : List Nat) (dataOffset : Nat) : List Nat :=
  fileBytes.drop dataOffset

/-- `total_frames = max(light_frame_count, audio_frame_count)`
(line 288). -/
def total_frames (lightFC audioFC : Nat) : Nat := max lightFC audioFC

/-- `total_channels = max(light_channel_count, start_channel +
audio_channels_per_frame)` (line 290). -/
def total_channels (lightCC sc aCPF : Nat) : Nat := max lightCC (sc + aCPF)

/-- The zero-filled row with the light-grid copy applied
(lines 336-343): `frame = bytearray(total_channels)`, then, when
`frame_i < light_frame_count` and `light_end <= len(light_data)`,
`frame[0:light_channel_count] = light_data[light_start:light_end]`. -/
def mergeRowLight (lightData : List Nat) (lightCC lightFC tc fi : Nat) :
    List Nat :=
  if fi < lightFC ∧ fi * lightCC + lightCC ≤ lightData.length then
    setSlice (List.replicate tc 0) 0 lightCC
      ((lightData.drop (fi * lightCC)).take lightCC)
  else List.replicate tc 0

/-- One output row of the merge loop (lines 334-352): the light row
overlaid, when `frame_i < audio_frame_count`, with
`frame[start_channel : start_channel + audio_channels_per_frame] =
audio_frames[frame_i]`. -/
def mergeRow (lightData : List Nat) (lightCC lightFC : Nat)
    (audioFrames : List (List Nat)) (aCPF sc tc fi : Nat) : List Nat :=
  if fi < audioFrames.length then
    setSlice (mergeRowLight lightData lightCC lightFC tc fi) sc (sc + aCPF)
      (audioFrames.getD fi [])
  else mergeRowLight lightData lightCC lightFC tc fi

/-- The sequence of channel-data rows written by `merge_into_fseq`
(lines 334-352), one per output frame index. -/
def merge_channel_rows (lightData : List Nat) (lightCC lightFC : Nat)
    (audioFrames : List (List Nat)) (aCPF sc : Nat) : List (List Nat) :=
  (List.range (total_frames lightFC audioFrames.length)).map
    (mergeRow lightData lightCC lightFC audioFrames aCPF sc
      (total_channels lightCC sc aCPF))

example : merge_channel_rows [7, 8, 9, 1] 2 2 [[5], [6], [4]] 1 2
    = [[7, 8, 5], [9, 1, 6], [0, 0, 4]] := by decide

/-- With in-range indices, `setSlice` is plain take/replace/drop. -/
lemma setSlice_eq (l v : List Nat) (a b : Nat) (hab : a ≤ b)
    (hb : b ≤ l.length) :
    setSlice l a b v = l.take a ++ v ++ l.drop b := by
  have h1 : min a l.length = a := Nat.min_eq_left (le_trans hab hb)
  have h2 : min b l.length = b := Nat.min_eq_left hb
  simp only [setSlice, h1, h2, Nat.max_eq_right hab]

/-- Replacing a span by a list of the span's exact width preserves the
length. -/
lemma setSlice_length (l v : List Nat) (a b : Nat) (hab : a ≤ b)
    (hb : b ≤ l.length) (hv : v.length = b - a) :
    (setSlice l a b v).length = l.length := by
  rw [setSlice_eq l v a b hab hb]
  simp only [List.length_append, List.length_take, List.length_drop]
  omega

/-- Entries strictly before the replaced span are untouched. -/
lemma setSlice_getD_left (l v : List Nat) (a b i : Nat) (hab : a ≤ b)
    (hb : b ≤ l.length) (hi : i < a) :
    (setSlice l a b v).getD i 0 = l.getD i 0 := by
  rw [setSlice_eq l v a b hab hb, List.append_assoc,
    List.getD_eq_getElem?_getD, List.getD_eq_getElem?_getD,
    List.getElem?_append, if_pos (by rw [List.length_take]; omega),
    List.getElem?_take, if_pos hi]

/-- Entries of the replaced span come from the replacement list. -/
lemma setSlice_getD_mid (l v : List Nat) (a b c : Nat) (hab : a ≤ b)
    (hb : b ≤ l.length) (hc : c < v.length) :
    (setSlice l a b v).getD (a + c) 0 = v.getD c 0 := by
  have hta : (l.take a).length = a := by
    rw [List.length_take]
    omega
  rw [setSlice_eq l v a b hab hb, List.append_assoc,
    List.getD_eq_getElem?_getD, List.getD_eq_getElem?_getD,
    List.getElem?_append, if_neg (by omega), hta,
    List.getElem?_append, if_pos (by omega)]
  have e : a + c - a = c := by omega
  rw [e]

/-- Entries at or past the end of a width-preserving replacement are
untouched. -/
lemma setSlice_getD_right (l v : List Nat) (a b i : Nat) (hab : a ≤ b)
    (hb : b ≤ l.length) (hv : v.length = b - a) (hi : b ≤ i) :
    (setSlice l a b v).getD i 0 = l.getD i 0 := by
  have hta : (l.take a).length = a := by
    rw [List.length_take]
    omega
  rw [setSlice_eq l v a b hab hb, List.append_assoc,
    List.getD_eq_getElem?_getD, List.getD_eq_getElem?_getD,
    List.getElem?_append, if_neg (by omega), hta,
    List.getElem?_append, if_neg (by omega), hv,
    List.getElem?_drop]
  have e : b + (i - a - (b - a)) = i := by omega
  rw [e]

/-- Reading inside a `drop`/`take` window addresses the base list. -/
lemma drop_take_getD (l : List Nat) (s k c : Nat) (hc : c < k) :
    ((l.drop s).take k).getD c 0 = l.getD (s + c) 0 := by
  rw [List.getD_eq_getElem?_getD, List.getD_eq_getElem?_getD,
    List.getElem?_take, if_pos hc, List.getElem?_drop]

/-- Every entry of an all-zero list reads as zero (also out of
range, where the default applies). -/
lemma replicate_zero_getD (n i : Nat) :
    (List.replicate n (0 : Nat)).getD i 0 = 0 := by
  rw [List.getD_eq_getElem?_getD, List.getElem?_replicate]
  split <;> rfl

/-- An audio frame fetched by index has the declared width. -/
lemma audio_getD_length (audioFrames : List (List Nat)) (aCPF fi : Nat)
    (hAudio : ∀ fr ∈ audioFrames, fr.length = aCPF)
    (hfi : fi < audioFrames.length) :
    (audioFrames.getD fi []).length = aCPF := by
  have h1 : audioFrames.getD fi [] = audioFrames[fi] := by
    rw [List.getD_eq_getElem?_getD, List.getElem?_eq_getElem hfi]
    rfl
  rw [h1]
  exact hAudio audioFrames[fi] (List.getElem_mem hfi)

/-- The light-copied row always has width `tc` when `lightCC ≤ tc`:
either the guard fails and the row is the zero row, or the copied
slice has exactly `lightCC` bytes. -/
lemma mergeRowLight_length (lightData : List Nat) (lightCC lightFC tc fi : Nat)
    (hlc : lightCC ≤ tc) :
    (mergeRowLight lightData lightCC lightFC tc fi).length = tc := by
  unfold mergeRowLight
  split
  · next hcond =>
      rw [setSlice_length _ _ _ _ (Nat.zero_le _)
        (by rw [List.length_replicate]; exact hlc)
        (by rw [List.length_take, List.length_drop]; omega),
        List.length_replicate]
  · exact List.length_replicate ..

/-- When the light guard holds, channels `c < lightCC` of the light
row read the light grid at `fi * lightCC + c`. -/
lemma mergeRowLight_getD_in (lightData : List Nat)
    (lightCC lightFC tc fi c : Nat) (hlc : lightCC ≤ tc)
    (hfi : fi < lightFC) (hok : fi * lightCC + lightCC ≤ lightData.length)
    (hc : c < lightCC) :
    (mergeRowLight lightData lightCC lightFC tc fi).getD c 0
      = lightData.getD (fi * lightCC + c) 0 := by
  unfold mergeRowLight
  rw [if_pos ⟨hfi, hok⟩]
  have e : c = 0 + c := by omega
  conv_lhs => rw [e]
  rw [setSlice_getD_mid _ _ _ _ _ (Nat.zero_le _)
    (by rw [List.length_replicate]; exact hlc)
    (by rw [List.length_take, List.length_drop]; omega)]
  exact drop_take_getD lightData (fi * lightCC) lightCC c hc

/-- Channels at or beyond `lightCC`, and every channel when the light
guard fails, read zero in the light row. -/
lemma mergeRowLight_getD_zero (lightData : List Nat)
    (lightCC lightFC tc fi c : Nat) (hlc : lightCC ≤ tc)
    (hout : lightCC ≤ c ∨
      ¬(fi < lightFC ∧ fi * lightCC + lightCC ≤ lightData.length)) :
    (mergeRowLight lightData lightCC lightFC tc fi).getD c 0 = 0 := by
  unfold mergeRowLight
  split
  · next hcond =>
      have hcc : lightCC ≤ c := by tauto
      rw [setSlice_getD_right _ _ _ _ _ (Nat.zero_le _)
        (by rw [List.length_replicate]; exact hlc)
        (by rw [List.length_take, List.length_drop]; omega) hcc]
      exact replicate_zero_getD ..
  · exact replicate_zero_getD ..

/-- Audio-region channels of a merged row read the audio frame bytes
(the audio overlay wins over any light bytes in its span). -/
lemma mergeRow_getD_audio (lightData : List Nat) (lightCC lightFC : Nat)
    (audioFrames : List (List Nat)) (aCPF sc fi c : Nat)
    (hAudio : ∀ fr ∈ audioFrames, fr.length = aCPF)
    (hlc : lightCC ≤ total_channels lightCC sc aCPF)
    (hsc : sc + aCPF ≤ total_channels lightCC sc aCPF)
    (hfi : fi < audioFrames.length) (hc : c < aCPF) :
    (mergeRow lightData lightCC lightFC audioFrames aCPF sc
        (total_channels lightCC sc aCPF) fi).getD (sc + c) 0
      = (audioFrames.getD fi []).getD c 0 := by
  unfold mergeRow
  rw [if_pos hfi]
  exact setSlice_getD_mid _ _ _ _ _ (by omega)
    (by rw [mergeRowLight_length _ _ _ _ _ hlc]; exact hsc)
    (by rw [audio_getD_length audioFrames aCPF fi hAudio hfi]; exact hc)

/-- Channels outside the audio span (or rows past the audio frame
count) of a merged row read the light row unchanged. -/
lemma mergeRow_getD_nonaudio (lightData : List Nat) (lightCC lightFC : Nat)
    (audioFrames : List (List Nat)) (aCPF sc fi c : Nat)
    (hAudio : ∀ fr ∈ audioFrames, fr.length = aCPF)
    (hlc : lightCC ≤ total_channels lightCC sc aCPF)
    (hsc : sc + aCPF ≤ total_channels lightCC sc aCPF)
    (hno : c < sc ∨ sc + aCPF ≤ c ∨ audioFrames.length ≤ fi) :
    (mergeRow lightData lightCC lightFC audioFrames aCPF sc
        (total_channels lightCC sc aCPF) fi).getD c 0
      = (mergeRowLight lightData lightCC lightFC
          (total_channels lightCC sc aCPF) fi).getD c 0 := by
  unfold mergeRow
  split
  · next hfi =>
      rcases hno with hlt | hge | hcontra
      · exact setSlice_getD_left _ _ _ _ _ (by omega)
          (by rw [mergeRowLight_length _ _ _ _ _ hlc]; exact hsc) hlt
      · exact setSlice_getD_right _ _ _ _ _ (by omega)
          (by rw [mergeRowLight_length _ _ _ _ _ hlc]; exact hsc)
          (by rw [audio_getD_length audioFrames aCPF fi hAudio hfi]; omega)
          hge
      · omega
  · rfl

/-- Every merged row has width `total_channels`, whatever the light
data length. -/
lemma mergeRow_length (lightData : List Nat) (lightCC lightFC : Nat)
    (audioFrames : List (List Nat)) (aCPF sc fi : Nat)
    (hAudio : ∀ fr ∈ audioFrames, fr.length = aCPF) :
    (mergeRow lightData lightCC lightFC audioFrames aCPF sc
        (total_channels lightCC sc aCPF) fi).length
      = total_channels lightCC sc aCPF := by
  have hlc : lightCC ≤ total_channels lightCC sc aCPF := le_max_left _ _
  have hsc : sc + aCPF ≤ total_channels lightCC sc aCPF := le_max_right _ _
  unfold mergeRow
  split
  · next hfi =>
      rw [setSlice_length _ _ _ _ (by omega)
        (by rw [mergeRowLight_length _ _ _ _ _ hlc]; exact hsc)
        (by rw [audio_getD_length audioFrames aCPF fi hAudio hfi]; omega)]
      exact mergeRowLight_length _ _ _ _ _ hlc
  · exact mergeRowLight_length _ _ _ _ _ hlc

/-- The row list produced by the merge loop, indexed. -/
lemma merge_channel_rows_getD (lightData : List Nat) (lightCC lightFC : Nat)
    (audioFrames : List (List Nat)) (aCPF sc fi : Nat)
    (hfi : fi < total_frames lightFC audioFrames.length) :
    (merge_channel_rows lightData lightCC lightFC audioFrames aCPF sc).getD fi []
      = mergeRow lightData lightCC lightFC audioFrames aCPF sc
          (total_channels lightCC sc aCPF) fi := by
  unfold merge_channel_rows
  rw [List.getD_eq_getElem?_getD, List.getElem?_map, List.getElem?_range hfi]
  rfl

/-- Claim C5 (counterexample): a merge target declaring 2 channels x 2
frames whose channel-data region holds only 3 bytes is not rejected.
`read_channel_data` returns the short region without any length check,
and the merge proceeds, producing the full output grid with the
unavailable light row left zero — there is no `TruncatedChannelData`
failure. -/
theorem merge_truncated_proceeds :
    (read_channel_data [0, 0, 7, 8, 9] 2).length < 2 * 2 ∧
    merge_channel_rows (read_channel_data [0, 0, 7, 8, 9] 2) 2 2
        [[5], [6]] 1 2
      = [[7, 8, 5], [0, 0, 6]] := by
  decide

/-- Claim C5 (amended): when the channel-data region is shorter than
the light row for frame `fi` requires (`fi * lightCC + lightCC` bytes),
the merge does not fail; it writes the full-width row for that frame
with every channel outside the audio span zero (the light copy is
skipped for that frame). -/
theorem merge_truncated_light_zeros (lightData : List Nat)
    (lightCC lightFC aCPF sc fi : Nat) (audioFrames : List (List Nat))
    (hAudio : ∀ fr ∈ audioFrames, fr.length = aCPF)
    (htrunc : lightData.length < fi * lightCC + lightCC)
    (hfi : fi < total_frames lightFC audioFrames.length) :
    ((merge_channel_rows lightData lightCC lightFC audioFrames
        aCPF sc).getD fi []).length = total_channels lightCC sc aCPF ∧
    ∀ c, c < sc ∨ sc + aCPF ≤ c →
      ((merge_channel_rows lightData lightCC lightFC audioFrames
          aCPF sc).getD fi []).getD c 0 = 0 := by
  have hlc : lightCC ≤ total_channels lightCC sc aCPF := le_max_left _ _
  have hsc : sc + aCPF ≤ total_channels lightCC sc aCPF := le_max_right _ _
  rw [merge_channel_rows_getD lightData lightCC lightFC audioFrames
    aCPF sc fi hfi]
  constructor
  · exact mergeRow_length lightData lightCC lightFC audioFrames
      aCPF sc fi hAudio
  · intro c hc
    rw [mergeRow_getD_nonaudio lightData lightCC lightFC audioFrames
      aCPF sc fi c hAudio hlc hsc (by tauto)]
    exact mergeRowLight_getD_zero lightData lightCC lightFC _ fi c hlc
      (Or.inr (by omega))

/-- Witness for `merge_truncated_light_zeros`: merging audio frames
`[[5], [6]]` at channel 2 into a 2x2 light grid with only 3 data bytes
leaves channel 0 of frame 1 zero. -/
theorem merge_truncated_light_zeros_witness :
    ((merge_channel_rows [7, 8, 9] 2 2 [[5], [6]] 1 2).getD 1 []).getD 0 0
      = 0 :=
  (merge_truncated_light_zeros [7, 8, 9] 2 2 1 2 1 [[5], [6]]
    (by decide) (by decide) (by decide)).2 0 (Or.inl (by decide))

/-- Claim C6: the merged grid has `total_frames = max(lightFrameCount,
audioFrameCount)` rows; inside each row, audio-span channels of rows
below the audio frame count read the audio frame bytes (audio
overwrites any overlap), light channels of rows below the light frame
count read the light grid row (outside the audio span), and every
other channel reads zero. -/
theorem merge_dimension_union (lightData : List Nat)
    (lightCC lightFC aCPF sc : Nat) (audioFrames : List (List Nat))
    (hLight : lightData.length = lightCC * lightFC)
    (hAudio : ∀ fr ∈ audioFrames, fr.length = aCPF) :
    (merge_channel_rows lightData lightCC lightFC audioFrames
        aCPF sc).length = total_frames lightFC audioFrames.length ∧
    ∀ fi, fi < total_frames lightFC audioFrames.length →
      (fi < audioFrames.length → ∀ c, c < aCPF →
        ((merge_channel_rows lightData lightCC lightFC audioFrames
            aCPF sc).getD fi []).getD (sc + c) 0
          = (audioFrames.getD fi []).getD c 0) ∧
      (fi < lightFC → ∀ c, c < lightCC →
        c < sc ∨ sc + aCPF ≤ c ∨ audioFrames.length ≤ fi →
        ((merge_channel_rows lightData lightCC lightFC audioFrames
            aCPF sc).getD fi []).getD c 0
          = lightData.getD (fi * lightCC + c) 0) ∧
      (∀ c, c < total_channels lightCC sc aCPF →
        lightCC ≤ c ∨ lightFC ≤ fi →
        c < sc ∨ sc + aCPF ≤ c ∨ audioFrames.length ≤ fi →
        ((merge_channel_rows lightData lightCC lightFC audioFrames
            aCPF sc).getD fi []).getD c 0 = 0) := by
  have hlc : lightCC ≤ total_channels lightCC sc aCPF := le_max_left _ _
  have hsc : sc + aCPF ≤ total_channels lightCC sc aCPF := le_max_right _ _
  constructor
  · unfold merge_channel_rows
    rw [List.length_map, List.length_range]
  · intro fi hfi
    rw [merge_channel_rows_getD lightData lightCC lightFC audioFrames
      aCPF sc fi hfi]
    refine ⟨?_, ?_, ?_⟩
    · intro hfa c hc
      exact mergeRow_getD_audio lightData lightCC lightFC audioFrames
        aCPF sc fi c hAudio hlc hsc hfa hc
    · intro hfl c hc hno
      rw [mergeRow_getD_nonaudio lightData lightCC lightFC audioFrames
        aCPF sc fi c hAudio hlc hsc hno]
      have hok : fi * lightCC + lightCC ≤ lightData.length := by
        rw [hLight]
        have e : fi * lightCC + lightCC = (fi + 1) * lightCC := by
          rw [Nat.add_mul, Nat.one_mul]
        rw [e, Nat.mul_comm lightCC lightFC]
        exact Nat.mul_le_mul_right lightCC (by omega)
      exact mergeRowLight_getD_in lightData lightCC lightFC _ fi c hlc
        hfl hok hc
    · intro c hctc hout hno
      rw [mergeRow_getD_nonaudio lightData lightCC lightFC audioFrames
        aCPF sc fi c hAudio hlc hsc hno]
      rcases hout with hcc | hff
      · exact mergeRowLight_getD_zero lightData lightCC lightFC _ fi c hlc
          (Or.inl hcc)
      · exact mergeRowLight_getD_zero lightData lightCC lightFC _ fi c hlc
          (Or.inr (by omega))

/-- Witness for `merge_dimension_union`: a 2-channel x 4-frame light
grid merged with six 1-byte audio frames at channel 3; row 5 (beyond
the light grid) carries the audio byte at channel 3. -/
theorem merge_dimension_union_witness :
    ((merge_channel_rows [1, 1, 1, 1, 1, 1, 1, 1] 2 4
        [[9], [9], [9], [9], [9], [9]] 1 3).getD 5 []).getD (3 + 0) 0
      = (([[9], [9], [9], [9], [9], [9]] : List (List Nat)).getD 5 []).getD 0 0 :=
  (((merge_dimension_union [1, 1, 1, 1, 1, 1, 1, 1] 2 4 1 3
      [[9], [9], [9], [9], [9], [9]] (by decide) (by decide)).2
    5 (by decide)).1 (by decide) 0 (by decide))

/-- Claim C10: under the (unchecked) precondition that every audio
frame has exactly `audioChannelsPerFrame` bytes, every row the merge
writes has width exactly `total_channels` — the zero-filled row is
neither shortened nor lengthened by the light copy or the audio slice
assignment. -/
theorem merge_row_width_invariant (lightData : List Nat)
    (lightCC lightFC aCPF sc : Nat) (audioFrames : List (List Nat))
    (hAudio : ∀ fr ∈ audioFrames, fr.length = aCPF) :
    ∀ fi, fi < total_frames lightFC audioFrames.length →
      ((merge_channel_rows lightData lightCC lightFC audioFrames
          aCPF sc).getD fi []).length = total_channels lightCC sc aCPF := by
  intro fi hfi
  rw [merge_channel_rows_getD lightData lightCC lightFC audioFrames
    aCPF sc fi hfi]
  exact mergeRow_length lightData lightCC lightFC audioFrames aCPF sc fi
    hAudio

/-- Witness for `merge_row_width_invariant`: a 2x1 light grid with a
3-byte audio frame at channel 1 yields a row of width
`max 2 (1 + 3) = 4`. -/
theorem merge_row_width_invariant_witness :
    ((merge_channel_rows [1, 1] 2 1 [[5, 5, 5]] 3 1).getD 0 []).length
      = total_channels 2 1 3 :=
  merge_row_width_invariant [1, 1] 2 1 3 1 [[5, 5, 5]] (by decide)
    0 (by decide)

end Audio2Fseq
